import Mathlib

/-!
Verification of the slot-state / reconciliation core of the
`streamlit-cal` booking calendar (`src/app.py`, `src/core.py`).

The embedding models:
  * slot identity (`derive_unique_code`, app.py line 549),
  * the persisted-availability snapshot (`current_availability`,
    app.py lines 441-455),
  * the availability reconciler inside `show_admin_panel`
    (app.py lines 533-599),
  * the booking lifecycle (`update_booking`, `cancel_booking` and the
    submit handler of `show_booking_dialog`, core.py / app.py).

Dates are modelled at day granularity as `Nat` (days since the Unix
epoch); 1970-01-01 was a Thursday, so Python's `date.weekday()`
(Monday = 0) is `(day + 3) % 7`.  `int(date.timestamp())` is modelled
as `86400 * day` (midnight of that day); adding a constant time-of-day
offset would change nothing below.
-/

namespace StreamlitCal

/-- The `am_pm` column: Python strings `'am'` / `'pm'`. -/
inductive Shift where
  | am : Shift
  | pm : Shift
deriving DecidableEq, Repr

/-- The literal string stored in the `am_pm` column. -/
def Shift.str : Shift → String
  | .am => "am"
  | .pm => "pm"

/-- A calendar-slot key `(date, column_index, shift)` exactly as the
tuple `lookup_key = (date.date(), i, shift_type)` of app.py line 539. -/
structure Key where
  date : Nat
  col : Nat
  shift : Shift
deriving DecidableEq, Repr

/-- Python's `date.weekday()` (Monday = 0) for a day index. -/
def weekday (d : Nat) : Nat := (d + 3) % 7

/-- `date.weekday() >= 5` — the weekend test of app.py lines 460/534. -/
def isWeekend (d : Nat) : Bool := decide (weekday d ≥ 5)

/-- `int(date.timestamp())` at day granularity. -/
def epochSeconds (d : Nat) : Nat := 86400 * d

/-- Little-endian decimal digits of `n`, computed with explicit fuel so
that the definition is structural (the kernel can evaluate it). -/
def decDigitsAux : Nat → Nat → List Nat
  | _, 0 => []
  | 0, _ + 1 => []
  | fuel + 1, n + 1 => (n + 1) % 10 :: decDigitsAux fuel ((n + 1) / 10)

/-- Little-endian decimal digits of `n` (`[]` for `0`). -/
def decDigits (n : Nat) : List Nat := decDigitsAux n n

/-- The decimal rendering of a natural number, modelling how Python's
f-string formats a non-negative `int`. -/
def decRepr (n : Nat) : String :=
  if n = 0 then "0" else List.asString (((decDigits n).reverse).map Nat.digitChar)

/-- `f"{int(date.timestamp())}-{shift_type}-{i}"` — app.py line 549. -/
def derive_unique_code (d : Nat) (s : Shift) (i : Nat) : String :=
  decRepr (epochSeconds d) ++ "-" ++ s.str ++ "-" ++ decRepr i

/-- The derived code of a slot key. -/
def Key.derived (k : Key) : String := derive_unique_code k.date k.shift k.col

/-! ### Injectivity of the decimal rendering -/

/-- Recombining little-endian decimal digits. -/
def decVal (l : List Nat) : Nat := l.foldr (fun d acc => d + 10 * acc) 0

theorem decVal_decDigitsAux : ∀ (fuel n : Nat), n ≤ fuel →
    decVal (decDigitsAux fuel n) = n := by
  intro fuel
  induction fuel with
  | zero =>
    intro n hn
    interval_cases n
    rfl
  | succ f ih =>
    intro n hn
    match n with
    | 0 => rfl
    | m + 1 =>
      have hdiv : (m + 1) / 10 ≤ f := by
        have h1 : (m + 1) / 10 < m + 1 := Nat.div_lt_self (Nat.succ_pos m) (by omega)
        omega
      show decVal ((m + 1) % 10 :: decDigitsAux f ((m + 1) / 10)) = m + 1
      have := ih ((m + 1) / 10) hdiv
      simp only [decVal, List.foldr] at this ⊢
      rw [this]
      omega

theorem decVal_decDigits (n : Nat) : decVal (decDigits n) = n :=
  decVal_decDigitsAux n n (Nat.le_refl n)

theorem decDigits_injective : Function.Injective decDigits := by
  intro a b h
  have := decVal_decDigits a
  rw [h, decVal_decDigits] at this
  omega

theorem decDigitsAux_lt_ten : ∀ (fuel n : Nat), ∀ d ∈ decDigitsAux fuel n, d < 10 := by
  intro fuel
  induction fuel with
  | zero =>
    intro n d hd
    match n with
    | 0 => simp [decDigitsAux] at hd
    | m + 1 => simp [decDigitsAux] at hd
  | succ f ih =>
    intro n d hd
    match n with
    | 0 => simp [decDigitsAux] at hd
    | m + 1 =>
      simp only [decDigitsAux, List.mem_cons] at hd
      rcases hd with h | h
      · omega
      · exact ih _ d h

theorem decDigits_lt_ten (n : Nat) : ∀ d ∈ decDigits n, d < 10 :=
  decDigitsAux_lt_ten n n

theorem digitChar_inj_lt_ten :
    ∀ a, a < 10 → ∀ b, b < 10 → Nat.digitChar a = Nat.digitChar b → a = b := by
  decide

theorem digitChar_ne_dash : ∀ a, a < 10 → Nat.digitChar a ≠ '-' := by
  decide

theorem map_digitChar_inj : ∀ (l₁ l₂ : List Nat),
    (∀ d ∈ l₁, d < 10) → (∀ d ∈ l₂, d < 10) →
    l₁.map Nat.digitChar = l₂.map Nat.digitChar → l₁ = l₂ := by
  intro l₁
  induction l₁ with
  | nil =>
    intro l₂ _ _ h
    cases l₂ with
    | nil => rfl
    | cons b t => simp at h
  | cons a t ih =>
    intro l₂ h₁ h₂ h
    cases l₂ with
    | nil => simp at h
    | cons b t₂ =>
      simp only [List.map_cons, List.cons.injEq] at h
      have ha : a < 10 := h₁ a (List.mem_cons_self a t)
      have hb : b < 10 := h₂ b (List.mem_cons_self b t₂)
      have hab := digitChar_inj_lt_ten a ha b hb h.1
      have ht := ih t₂ (fun d hd => h₁ d (List.mem_cons_of_mem a hd))
        (fun d hd => h₂ d (List.mem_cons_of_mem b hd)) h.2
      rw [hab, ht]

theorem decRepr_data_ne_dash (n : Nat) : ∀ c ∈ (decRepr n).data, c ≠ '-' := by
  intro c hc
  unfold decRepr at hc
  by_cases h0 : n = 0
  · simp only [h0, if_pos rfl] at hc
    have : c = '0' := by
      simpa using hc
    rw [this]; decide
  · simp only [if_neg h0] at hc
    have hc' : c ∈ ((decDigits n).reverse.map Nat.digitChar) := by
      simpa [List.asString] using hc
    rcases List.mem_map.mp hc' with ⟨d, hd, hdc⟩
    have : d < 10 := decDigits_lt_ten n d (List.mem_reverse.mp hd)
    rw [← hdc]
    exact digitChar_ne_dash d this

theorem decRepr_injective : Function.Injective decRepr := by
  intro a b h
  unfold decRepr at h
  by_cases ha : a = 0 <;> by_cases hb : b = 0
  · rw [ha, hb]
  · exfalso
    simp only [if_pos ha, if_neg hb] at h
    have hdata : ("0" : String).data = (List.asString ((decDigits b).reverse.map Nat.digitChar)).data := by
      rw [h]
    have : ['0'] = (decDigits b).reverse.map Nat.digitChar := by
      simpa [List.asString] using hdata
    have hrev : (decDigits b).reverse = [0] := by
      have := map_digitChar_inj [0] ((decDigits b).reverse) (by decide)
        (fun d hd => decDigits_lt_ten b d (List.mem_reverse.mp hd)) (by simpa using this)
      exact this.symm
    have : decDigits b = [0] := by
      have := congrArg List.reverse hrev
      simpa using this
    have hval := decVal_decDigits b
    rw [this] at hval
    simp [decVal] at hval
    exact hb hval.symm
  · exfalso
    simp only [if_neg ha, if_pos hb] at h
    have hdata : (List.asString ((decDigits a).reverse.map Nat.digitChar)).data = ("0" : String).data := by
      rw [h]
    have : (decDigits a).reverse.map Nat.digitChar = ['0'] := by
      simpa [List.asString] using hdata
    have hrev : (decDigits a).reverse = [0] := by
      exact map_digitChar_inj ((decDigits a).reverse) [0]
        (fun d hd => decDigits_lt_ten a d (List.mem_reverse.mp hd)) (by decide) (by simpa using this)
    have : decDigits a = [0] := by
      have := congrArg List.reverse hrev
      simpa using this
    have hval := decVal_decDigits a
    rw [this] at hval
    simp [decVal] at hval
    exact ha hval.symm
  · simp only [if_neg ha, if_neg hb] at h
    have hdata := congrArg String.data h
    have hmaps : (decDigits a).reverse.map Nat.digitChar = (decDigits b).reverse.map Nat.digitChar := by
      simpa [List.asString] using hdata
    have hrev := map_digitChar_inj ((decDigits a).reverse) ((decDigits b).reverse)
      (fun d hd => decDigits_lt_ten a d (List.mem_reverse.mp hd))
      (fun d hd => decDigits_lt_ten b d (List.mem_reverse.mp hd)) hmaps
    have : decDigits a = decDigits b := by
      have := congrArg List.reverse hrev
      simpa using this
    exact decDigits_injective this

/-- Splitting at the first dash is unambiguous when the prefixes are
dash-free. -/
theorem append_dash_inj : ∀ (a₁ : List Char) (x₁ a₂ x₂ : List Char),
    (∀ c ∈ a₁, c ≠ '-') → (∀ c ∈ a₂, c ≠ '-') →
    a₁ ++ '-' :: x₁ = a₂ ++ '-' :: x₂ → a₁ = a₂ ∧ x₁ = x₂ := by
  intro a₁
  induction a₁ with
  | nil =>
    intro x₁ a₂ x₂ _ h₂ h
    cases a₂ with
    | nil =>
      simp only [List.nil_append, List.cons.injEq] at h
      exact ⟨rfl, h.2⟩
    | cons c t =>
      exfalso
      simp only [List.nil_append, List.cons_append, List.cons.injEq] at h
      exact h₂ c (List.mem_cons_self c t) h.1.symm
  | cons c t ih =>
    intro x₁ a₂ x₂ h₁ h₂ h
    cases a₂ with
    | nil =>
      exfalso
      simp only [List.cons_append, List.nil_append, List.cons.injEq] at h
      exact h₁ c (List.mem_cons_self c t) h.1
    | cons c' t' =>
      simp only [List.cons_append, List.cons.injEq] at h
      have := ih x₁ t' x₂ (fun d hd => h₁ d (List.mem_cons_of_mem c hd))
        (fun d hd => h₂ d (List.mem_cons_of_mem c' hd)) h.2
      exact ⟨by rw [h.1, this.1], this.2⟩

theorem shiftStr_data_ne_dash (s : Shift) : ∀ c ∈ s.str.data, c ≠ '-' := by
  cases s <;> decide

theorem shiftStr_inj : ∀ (s₁ s₂ : Shift), s₁.str.data = s₂.str.data → s₁ = s₂ := by
  intro s₁ s₂
  cases s₁ <;> cases s₂ <;> simp [Shift.str]

/-- C5 core: `derive_unique_code` is collision-free — distinct
`(date, shift, column_index)` triples yield distinct code strings. -/
theorem derive_unique_code_inj (d₁ d₂ : Nat) (s₁ s₂ : Shift) (i₁ i₂ : Nat)
    (h : derive_unique_code d₁ s₁ i₁ = derive_unique_code d₂ s₂ i₂) :
    d₁ = d₂ ∧ s₁ = s₂ ∧ i₁ = i₂ := by
  have hdata := congrArg String.data h
  simp only [derive_unique_code, String.data_append] at hdata
  simp only [List.append_assoc, List.singleton_append] at hdata
  have h1 := append_dash_inj _ _ _ _
    (decRepr_data_ne_dash (epochSeconds d₁)) (decRepr_data_ne_dash (epochSeconds d₂)) hdata
  have h2 := append_dash_inj _ _ _ _
    (shiftStr_data_ne_dash s₁) (shiftStr_data_ne_dash s₂) h1.2
  refine ⟨?_, shiftStr_inj s₁ s₂ h2.1, ?_⟩
  · have : decRepr (epochSeconds d₁) = decRepr (epochSeconds d₂) := by
      apply String.ext
      exact h1.1
    have := decRepr_injective this
    simp only [epochSeconds] at this
    omega
  · have : decRepr i₁ = decRepr i₂ := by
      apply String.ext
      exact h2.2
    exact decRepr_injective this

/-! ### The availability snapshot and the reconciler -/

/-- One entry of the `current_availability` dict (app.py lines 449-455):
the fields kept per key when the persisted sheet is snapshotted.
`booked` is the parsed boolean of the sheet's `booked` column and
`pharmacist_name` defaults to `"None"` when absent. -/
structure SlotInfo where
  booked : Bool
  surgery : String
  email : String
  unique_code : String
  pharmacist_name : String
deriving DecidableEq, Repr

/-- The persisted snapshot: `current_availability` as a partial map from
keys to slot info (`current_availability.get(lookup_key, ...)`). -/
def Snapshot := Key → Option SlotInfo

/-- `slot_info.get('pharmacist_name', 'None')` (app.py line 542),
with the `{}` default for an absent key. -/
def pharmAt (snap : Snapshot) (k : Key) : String :=
  match snap k with
  | some s => s.pharmacist_name
  | none => "None"

/-- `slot_info.get('booked', False)` (app.py line 545). -/
def bookedAt (snap : Snapshot) (k : Key) : Bool :=
  match snap k with
  | some s => s.booked
  | none => false

/-- `slot_info.get('unique_code')` with `""` for a missing entry. -/
def codeAt (snap : Snapshot) (k : Key) : String :=
  match snap k with
  | some s => s.unique_code
  | none => ""

/-- `slot_info.get('unique_code') or f"{int(date.timestamp())}-{shift_type}-{i}"`
(app.py line 549): a missing or empty stored code is falsy in Python,
so the derived code is used instead. -/
def ucode (snap : Snapshot) (k : Key) : String :=
  if codeAt snap k = "" then k.derived else codeAt snap k

/-- One sheet row, following `EXPECTED_HEADERS` (app.py line 511). -/
structure Row where
  unique_code : String
  date : Nat
  am_pm : Shift
  booked : Bool
  surgery : String
  email : String
  pharmacist_name : String
  slot_index : Nat
deriving DecidableEq, Repr

/-- The key a row belongs to. -/
def Row.key (r : Row) : Key := ⟨r.date, r.slot_index, r.am_pm⟩

/-- `new_row_data` (app.py lines 567-576 and 588-597): a freshly created
availability row — unbooked, empty requester fields. -/
def newRow (k : Key) (u name : String) : Row :=
  { unique_code := u, date := k.date, am_pm := k.shift, booked := false,
    surgery := "", email := "", pharmacist_name := name, slot_index := k.col }

/-- The three storage mutations the reconciler can emit:
`sheet.append_row` (Create), `sheet.update_cell` on the
`pharmacist_name` column (UpdateAssignee), `sheet.delete_rows`
(Delete).  Update and Delete address the row found by
`sheet.find(unique_code)`. -/
inductive Mutation where
  | create (r : Row)
  | updateAssignee (code name : String)
  | delete (code : String)
deriving DecidableEq, Repr

/-- One iteration of the reconciliation loop body (app.py lines 539-599)
at key `k`.  `desired k` is the submitted form state
(`st.session_state.get(slot_key, 'None')`), `snap` the availability
snapshot, and `live u` tells whether `sheet.find(u)` succeeds against
the live worksheet (the `cell_to_modify` lookup, lines 552-558). -/
def step (desired : Key → String) (snap : Snapshot) (live : String → Bool)
    (k : Key) : List Mutation :=
  if bookedAt snap k then []
  else if desired k ≠ pharmAt snap k then
    let u := ucode snap k
    let found : Bool := (pharmAt snap k != "None") && (u != "") && live u
    if desired k = "None" then
      if found then [.delete u] else []
    else if pharmAt snap k = "None" then
      [.create (newRow k u (desired k))]
    else if found then
      [.updateAssignee u (desired k)]
    else
      [.create (newRow k u (desired k))]
  else []

/-- The `st.warning` surfaced by the modify-fallback branch
(app.py line 587), recorded as the list of codes warned about at `k`. -/
def stepWarn (desired : Key → String) (snap : Snapshot) (live : String → Bool)
    (k : Key) : List String :=
  if bookedAt snap k then []
  else if desired k ≠ pharmAt snap k then
    let u := ucode snap k
    let found : Bool := (pharmAt snap k != "None") && (u != "") && live u
    if desired k = "None" then []
    else if pharmAt snap k = "None" then []
    else if found then []
    else [u]
  else []

/-- The keys examined for one date:
`for i in range(2): for shift_type in ['am', 'pm']` (app.py lines 536-537). -/
def dayKeys (d : Nat) : List Key :=
  [⟨d, 0, .am⟩, ⟨d, 0, .pm⟩, ⟨d, 1, .am⟩, ⟨d, 1, .pm⟩]

/-- All keys one reconciliation run examines: weekend dates are skipped
(`if date.weekday() >= 5: continue`, app.py line 534). -/
def gridOf (dates : List Nat) : List Key :=
  dates.flatMap fun d => if isWeekend d then [] else dayKeys d

/-- The full reconciliation run, each mutation tagged with the key that
produced it. -/
def reconcileKeyed (dates : List Nat) (desired : Key → String) (snap : Snapshot)
    (live : String → Bool) : List (Key × Mutation) :=
  (gridOf dates).flatMap fun k => (step desired snap live k).map (fun m => (k, m))

/-- The ordered mutation list of one reconciliation run
(app.py lines 533-599). -/
def reconcile (dates : List Nat) (desired : Key → String) (snap : Snapshot)
    (live : String → Bool) : List Mutation :=
  (reconcileKeyed dates desired snap live).map Prod.snd

/-- All warnings surfaced by one run. -/
def reconWarnings (dates : List Nat) (desired : Key → String) (snap : Snapshot)
    (live : String → Bool) : List String :=
  (gridOf dates).flatMap (stepWarn desired snap live)

/-- `dates_to_show` (app.py lines 433-439): every day from `today` to
`today + 7 * num_weeks` inclusive. -/
def datesToShow (today numWeeks : Nat) : List Nat :=
  (List.range (7 * numWeeks + 1)).map (today + ·)

/-- Modelled from the spec: the storage collaborator that executes the
mutations (the gspread worksheet) is outside `src/`, so the effect of a
single mutation on the persisted snapshot follows §6's storage contract
and §3's data model — `unique_code` is the sole join key for update and
delete, and a created row lands at its own `(date, column, shift)` key. -/
def applyMutation (snap : Snapshot) : Mutation → Snapshot
  | .create r => fun q =>
      if q = r.key then
        some { booked := r.booked, surgery := r.surgery, email := r.email,
               unique_code := r.unique_code, pharmacist_name := r.pharmacist_name }
      else snap q
  | .updateAssignee u name => fun q =>
      match snap q with
      | some s =>
          if s.unique_code = u then some { s with pharmacist_name := name } else some s
      | none => none
  | .delete u => fun q =>
      match snap q with
      | some s => if s.unique_code = u then none else some s
      | none => none

/-- Modelled from the spec: applying a whole mutation batch to the
persisted snapshot, in emission order. -/
def applyMutations (muts : List Mutation) (snap : Snapshot) : Snapshot :=
  muts.foldl applyMutation snap

/-- The spec's algorithm steps 3-6 (§4.3), written from the spec's words
for refinement comparison with `step`.  The source's sentinel for the
spec's `"unassigned"` is the string `"None"`. -/
def specAlgorithmCase (desired : Key → String) (snap : Snapshot) (k : Key) :
    List Mutation :=
  if pharmAt snap k = desired k then []
  else if desired k = "None" then [.delete (codeAt snap k)]
  else if pharmAt snap k = "None" then [.create (newRow k (ucode snap k) (desired k))]
  else [.updateAssignee (codeAt snap k) (desired k)]

/-! ### The booking lifecycle -/

/-- Replace the first row satisfying `p` — the row that
`sheet.find(...)` returns — or `none` when no row matches. -/
def updateFirst (p : Row → Bool) (f : Row → Row) : List Row → Option (List Row)
  | [] => none
  | r :: rs => if p r then some (f r :: rs) else (updateFirst p f rs).map (r :: ·)

/-- `update_booking` (core.py lines 336-404): find the row by
`unique_code`; when found, set `booked = "TRUE"` and store the
requester fields; when not found, surface an error and change nothing.
The boolean reports whether the mutation was applied. -/
def update_booking (sheet : List Row) (code surgery email : String) :
    List Row × Bool :=
  match updateFirst (fun r => r.unique_code == code)
      (fun r => { r with booked := true, surgery := surgery, email := email }) sheet with
  | some sheet2 => (sheet2, true)
  | none => (sheet, false)

/-- The submit branch of `show_booking_dialog` (app.py lines 726-737):
empty surgery or email is rejected (`"All fields are required."`)
before `update_booking` is invoked. -/
def submit_booking (sheet : List Row) (code surgery email : String) :
    List Row × Bool :=
  if surgery = "" ∨ email = "" then (sheet, false)
  else update_booking sheet code surgery email

/-- `cancel_booking` (core.py lines 260-334): find the row by
`unique_code`; when found, set `booked = "FALSE"` and clear the
requester fields; when not found, surface an error and change nothing. -/
def cancel_booking (sheet : List Row) (code : String) : List Row × Bool :=
  match updateFirst (fun r => r.unique_code == code)
      (fun r => { r with booked := false, surgery := "", email := "" }) sheet with
  | some sheet2 => (sheet2, true)
  | none => (sheet, false)

/-! ### Helper lemmas about `updateFirst` -/

theorem updateFirst_spec (p : Row → Bool) (f : Row → Row) :
    ∀ (l : List Row) (r : Row), l.find? p = some r →
    ∃ l₁ l₂, l = l₁ ++ r :: l₂ ∧ (∀ x ∈ l₁, p x = false) ∧
      updateFirst p f l = some (l₁ ++ f r :: l₂) := by
  intro l
  induction l with
  | nil => intro r h; simp at h
  | cons a t ih =>
    intro r h
    by_cases hp : p a = true
    · rw [List.find?_cons_of_pos _ hp] at h
      have hra : r = a := (Option.some.inj h).symm
      subst hra
      refine ⟨[], t, by simp, by simp, ?_⟩
      simp [updateFirst, hp]
    · have hp' : p a = false := by
        simpa using hp
      rw [List.find?_cons_of_neg _ hp] at h
      rcases ih r h with ⟨l₁, l₂, hl, hfalse, hup⟩
      refine ⟨a :: l₁, l₂, by simp [hl], ?_, ?_⟩
      · intro x hx
        rcases List.mem_cons.mp hx with hxa | hxl
        · rw [hxa]; exact hp'
        · exact hfalse x hxl
      · simp [updateFirst, hp', hup]

theorem updateFirst_eq_none (p : Row → Bool) (f : Row → Row) :
    ∀ (l : List Row), l.find? p = none → updateFirst p f l = none := by
  intro l
  induction l with
  | nil => intro _; rfl
  | cons a t ih =>
    intro h
    rw [List.find?_eq_none] at h
    have hp : p a = false := by
      have := h a (List.mem_cons_self a t)
      simpa using this
    have ht : t.find? p = none := by
      rw [List.find?_eq_none]
      intro x hx
      exact h x (List.mem_cons_of_mem a hx)
    simp [updateFirst, hp, ih ht]

theorem find?_append_first (p : Row → Bool) :
    ∀ (l₁ : List Row) (x : Row) (l₂ : List Row),
    (∀ a ∈ l₁, p a = false) → p x = true →
    (l₁ ++ x :: l₂).find? p = some x := by
  intro l₁
  induction l₁ with
  | nil =>
    intro x l₂ _ hx
    simpa using List.find?_cons_of_pos l₂ hx
  | cons a t ih =>
    intro x l₂ hfalse hx
    have ha : p a = false := hfalse a (List.mem_cons_self a t)
    have han : ¬p a = true := by simp [ha]
    have := ih x l₂ (fun b hb => hfalse b (List.mem_cons_of_mem a hb)) hx
    rw [List.cons_append, List.find?_cons_of_neg _ han]
    exact this

/-- The code a mutation addresses: the appended row's `unique_code` for
Create, the `sheet.find` argument for UpdateAssignee and Delete. -/
def mutCode : Mutation → String
  | .create r => r.unique_code
  | .updateAssignee u _ => u
  | .delete u => u

/-! ### Concrete fixtures used by witnesses and counterexamples -/

/-- Day 4 since the epoch is Monday, 1970-01-05 — a weekday. -/
def day0 : Nat := 4

/-- A sample key: Monday 1970-01-05, column 0, AM. -/
def key0 : Key := ⟨day0, 0, .am⟩

/-- An unbooked slot assigned to Alice with stored code `"X"`. -/
def rowAlice : Row :=
  ⟨"X", day0, .am, false, "", "", "Alice", 0⟩

/-- A booked slot (requester fields set) with stored code `"X"`. -/
def rowBooked : Row :=
  ⟨"X", day0, .am, true, "Surg", "s@x", "Alice", 0⟩

/-- An unassigned-sentinel row (`pharmacist_name = "None"`), unbooked. -/
def rowNoneAssigned : Row :=
  ⟨"X", day0, .am, false, "", "", "None", 0⟩

/-- Snapshot info for an unbooked Alice slot with stored code `"X"`. -/
def infoAlice : SlotInfo :=
  ⟨false, "", "", "X", "Alice"⟩

/-- Snapshot info for an unbooked Alice slot whose stored code is empty. -/
def infoEmptyCode : SlotInfo :=
  ⟨false, "", "", "", "Alice"⟩

/-- A snapshot holding exactly `infoAlice` at `key0`. -/
def snapAlice : Snapshot := fun k => if k = key0 then some infoAlice else none

/-- A snapshot holding exactly `infoEmptyCode` at `key0`. -/
def snapEmptyCode : Snapshot := fun k => if k = key0 then some infoEmptyCode else none

/-- A desired state asking for Bob at `key0` and nothing elsewhere. -/
def desiredBob : Key → String := fun k => if k = key0 then "Bob" else "None"

/-- A desired state asking for no one anywhere. -/
def desiredNone : Key → String := fun _ => "None"

/-! ### C3 — the Book transition -/

/-- C3 (amended): Book rejects without mutation when the submitted
surgery or email is empty (the dialog's validation) and when the slot's
`unique_code` is not found in the sheet; but it performs no
`assigned_name` or `booked`-state precondition check — when the row is
found, the booking mutation is applied whatever `pharmacist_name` and
`booked` currently hold. -/
theorem book_transition_amended :
    (∀ (sheet : List Row) (code email2 : String),
      submit_booking sheet code "" email2 = (sheet, false)) ∧
    (∀ (sheet : List Row) (code surgery : String),
      submit_booking sheet code surgery "" = (sheet, false)) ∧
    (∀ (sheet : List Row) (code surgery email2 : String),
      sheet.find? (fun x => x.unique_code == code) = none →
      submit_booking sheet code surgery email2 = (sheet, false)) ∧
    (∀ (sheet : List Row) (code surgery email2 : String) (r : Row),
      surgery ≠ "" → email2 ≠ "" →
      sheet.find? (fun x => x.unique_code == code) = some r →
      (submit_booking sheet code surgery email2).2 = true ∧
      (submit_booking sheet code surgery email2).1.find?
          (fun x => x.unique_code == code) =
        some { r with booked := true, surgery := surgery, email := email2 }) := by
  refine ⟨?_, ?_, ?_, ?_⟩
  · intro sheet code email2
    simp [submit_booking]
  · intro sheet code surgery
    simp [submit_booking]
  · intro sheet code surgery email2 hfind
    by_cases hcond : surgery = "" ∨ email2 = ""
    · simp [submit_booking, hcond]
    · simp only [submit_booking, if_neg hcond]
      simp [update_booking, updateFirst_eq_none _ _ _ hfind]
  · intro sheet code surgery email2 r hs he hfind
    have hpr : (r.unique_code == code) = true := by
      have := List.find?_some hfind
      simpa using this
    rcases updateFirst_spec (fun x => x.unique_code == code)
      (fun x => { x with booked := true, surgery := surgery, email := email2 })
      sheet r hfind with ⟨l₁, l₂, hl, hfalse, hup⟩
    have hsb : submit_booking sheet code surgery email2 =
        (l₁ ++ { r with booked := true, surgery := surgery, email := email2 } :: l₂,
         true) := by
      simp only [submit_booking, if_neg (not_or.mpr ⟨hs, he⟩)]
      simp [update_booking, hup]
    rw [hsb]
    exact ⟨rfl, find?_append_first _ l₁ _ l₂ hfalse (by simpa using hpr)⟩

/-- C3 witness: a concrete booking on a found row applies the mutation. -/
theorem book_transition_amended_witness :
    ("S" : String) ≠ "" ∧ ("E" : String) ≠ "" ∧
    [rowAlice].find? (fun x => x.unique_code == "X") = some rowAlice ∧
    (submit_booking [rowAlice] "X" "S" "E").2 = true ∧
    (submit_booking [rowAlice] "X" "S" "E").1.find?
        (fun x => x.unique_code == "X") =
      some { rowAlice with booked := true, surgery := "S", email := "E" } :=
  ⟨by decide, by decide, by decide,
   book_transition_amended.2.2.2 [rowAlice] "X" "S" "E" rowAlice
     (by decide) (by decide) (by decide)⟩

/-- C3 counterexample: `Book` applied to an existing unbooked slot whose
`assigned_name` is the sentinel `"None"` succeeds and mutates the sheet,
instead of failing as the claim requires. -/
theorem book_none_assigned_succeeds :
    [rowNoneAssigned].find? (fun x => x.unique_code == "X") = some rowNoneAssigned ∧
    rowNoneAssigned.pharmacist_name = "None" ∧
    (submit_booking [rowNoneAssigned] "X" "S" "E").2 = true ∧
    (submit_booking [rowNoneAssigned] "X" "S" "E").1 =
      [{ rowNoneAssigned with booked := true, surgery := "S", email := "E" }] := by
  decide

/-! ### C4 — the Cancel transition -/

theorem updateFirst_append (p : Row → Bool) (f : Row → Row) :
    ∀ (l₁ : List Row) (x : Row) (l₂ : List Row),
    (∀ a ∈ l₁, p a = false) → p x = true →
    updateFirst p f (l₁ ++ x :: l₂) = some (l₁ ++ f x :: l₂) := by
  intro l₁
  induction l₁ with
  | nil =>
    intro x l₂ _ hx
    simp [updateFirst, hx]
  | cons a t ih =>
    intro x l₂ hfalse hx
    have ha : p a = false := hfalse a (List.mem_cons_self a t)
    have := ih x l₂ (fun b hb => hfalse b (List.mem_cons_of_mem a hb)) hx
    simp [updateFirst, ha, this]

theorem cancel_booking_found (sheet : List Row) (code : String) (r : Row)
    (hfind : sheet.find? (fun x => x.unique_code == code) = some r) :
    ∃ l₁ l₂, sheet = l₁ ++ r :: l₂ ∧
      (∀ x ∈ l₁, (x.unique_code == code) = false) ∧
      cancel_booking sheet code =
        (l₁ ++ { r with booked := false, surgery := "", email := "" } :: l₂, true) := by
  rcases updateFirst_spec (fun x => x.unique_code == code)
    (fun x => { x with booked := false, surgery := "", email := "" })
    sheet r hfind with ⟨l₁, l₂, hl, hfalse, hup⟩
  exact ⟨l₁, l₂, hl, hfalse, by simp [cancel_booking, hup]⟩

theorem cancel_preserves (sh : List Row) (u : String) :
    (cancel_booking sh u).1.length = sh.length ∧
    (cancel_booking sh u).1.map Row.pharmacist_name = sh.map Row.pharmacist_name := by
  cases hf : sh.find? (fun x => x.unique_code == u) with
  | none => simp [cancel_booking, updateFirst_eq_none _ _ _ hf]
  | some r =>
    rcases cancel_booking_found sh u r hf with ⟨l₁, l₂, hl, _, hcb⟩
    rw [hcb, hl]
    constructor <;> simp

/-- C4 (amended): Cancel fails — leaving the sheet unchanged — exactly
when the slot's `unique_code` is not found.  It performs no check that
`booked` is true: when the row is found the cancellation mutation is
applied whatever state the row is in, so cancelling twice in a row
succeeds both times, the second call leaving the sheet unchanged. -/
theorem cancel_transition_amended :
    (∀ (sheet : List Row) (code : String),
      sheet.find? (fun x => x.unique_code == code) = none →
      cancel_booking sheet code = (sheet, false)) ∧
    (∀ (sheet : List Row) (code : String) (r : Row),
      sheet.find? (fun x => x.unique_code == code) = some r →
      (cancel_booking sheet code).2 = true ∧
      (cancel_booking sheet code).1.find? (fun x => x.unique_code == code) =
        some { r with booked := false, surgery := "", email := "" }) ∧
    (∀ (sheet : List Row) (code : String) (r : Row),
      sheet.find? (fun x => x.unique_code == code) = some r →
      (cancel_booking (cancel_booking sheet code).1 code).2 = true ∧
      (cancel_booking (cancel_booking sheet code).1 code).1 =
        (cancel_booking sheet code).1) := by
  have hcase : ∀ (sheet : List Row) (code : String) (r : Row),
      sheet.find? (fun x => x.unique_code == code) = some r →
      (cancel_booking sheet code).2 = true ∧
      (cancel_booking sheet code).1.find? (fun x => x.unique_code == code) =
        some { r with booked := false, surgery := "", email := "" } := by
    intro sheet code r hfind
    have hpr : (r.unique_code == code) = true := by
      have := List.find?_some hfind
      simpa using this
    rcases cancel_booking_found sheet code r hfind with ⟨l₁, l₂, _, hfalse, hcb⟩
    rw [hcb]
    exact ⟨rfl, find?_append_first _ l₁ _ l₂ hfalse (by simpa using hpr)⟩
  refine ⟨?_, hcase, ?_⟩
  · intro sheet code hfind
    simp [cancel_booking, updateFirst_eq_none _ _ _ hfind]
  · intro sheet code r hfind
    have h1 := hcase sheet code r hfind
    have h2 := hcase (cancel_booking sheet code).1 code
      { r with booked := false, surgery := "", email := "" } h1.2
    refine ⟨h2.1, ?_⟩
    rcases cancel_booking_found (cancel_booking sheet code).1 code
      { r with booked := false, surgery := "", email := "" } h1.2 with
      ⟨m₁, m₂, hm, _, hcb2⟩
    rw [hcb2, hm]

/-- C4 witness: a concrete double cancellation — both calls succeed and
the second is a no-op on the sheet. -/
theorem cancel_transition_amended_witness :
    [rowBooked].find? (fun x => x.unique_code == "X") = some rowBooked ∧
    (cancel_booking (cancel_booking [rowBooked] "X").1 "X").2 = true ∧
    (cancel_booking (cancel_booking [rowBooked] "X").1 "X").1 =
      (cancel_booking [rowBooked] "X").1 :=
  ⟨by decide, cancel_transition_amended.2.2 [rowBooked] "X" rowBooked (by decide)⟩

/-- C4 counterexample: cancelling the same booked slot twice in a row —
the claim says the second call must fail, but it succeeds. -/
theorem cancel_twice_second_succeeds :
    (cancel_booking [rowBooked] "X").2 = true ∧
    (cancel_booking (cancel_booking [rowBooked] "X").1 "X").2 = true := by
  decide

/-! ### C7 — the Book/Cancel round trip -/

/-- C7: for an unbooked assigned slot, Book followed by Cancel restores
`booked = false`, clears both requester fields, and leaves the assignee
exactly as it was before Book; and Cancel never deletes a row or
changes any assignee. -/
theorem book_cancel_roundtrip (sheet : List Row) (code surgery email2 : String)
    (r : Row) (hsurg : surgery ≠ "") (hemail : email2 ≠ "")
    (hfind : sheet.find? (fun x => x.unique_code == code) = some r)
    (_hunbooked : r.booked = false) (_hassigned : r.pharmacist_name ≠ "None") :
    (submit_booking sheet code surgery email2).2 = true ∧
    (cancel_booking (submit_booking sheet code surgery email2).1 code).2 = true ∧
    (cancel_booking (submit_booking sheet code surgery email2).1 code).1.find?
        (fun x => x.unique_code == code) =
      some { r with booked := false, surgery := "", email := "" } ∧
    (cancel_booking (submit_booking sheet code surgery email2).1 code).1.length =
      sheet.length ∧
    (cancel_booking (submit_booking sheet code surgery email2).1 code).1.map
        Row.pharmacist_name = sheet.map Row.pharmacist_name ∧
    (∀ (sh : List Row) (u : String),
      (cancel_booking sh u).1.length = sh.length ∧
      (cancel_booking sh u).1.map Row.pharmacist_name =
        sh.map Row.pharmacist_name) := by
  have hpr : (r.unique_code == code) = true := by
    have := List.find?_some hfind
    simpa using this
  rcases updateFirst_spec (fun x => x.unique_code == code)
    (fun x => { x with booked := true, surgery := surgery, email := email2 })
    sheet r hfind with ⟨l₁, l₂, hl, hfalse, hup⟩
  have hsb : submit_booking sheet code surgery email2 =
      (l₁ ++ { r with booked := true, surgery := surgery, email := email2 } :: l₂,
       true) := by
    simp only [submit_booking, if_neg (not_or.mpr ⟨hsurg, hemail⟩)]
    simp [update_booking, hup]
  have hcb : cancel_booking
      (l₁ ++ { r with booked := true, surgery := surgery, email := email2 } :: l₂)
      code = (l₁ ++ { r with booked := false, surgery := "", email := "" } :: l₂,
       true) := by
    have := updateFirst_append (fun x => x.unique_code == code)
      (fun x => { x with booked := false, surgery := "", email := "" })
      l₁ { r with booked := true, surgery := surgery, email := email2 } l₂
      hfalse (by simpa using hpr)
    simp [cancel_booking, this]
  rw [hsb]
  simp only [hcb]
  refine ⟨trivial, trivial, ?_, ?_, ?_, fun sh u => cancel_preserves sh u⟩
  · exact find?_append_first _ l₁ _ l₂ hfalse (by simpa using hpr)
  · rw [hl]; simp
  · rw [hl]; simp

/-- C7 witness: the round trip on a concrete one-row sheet. -/
theorem book_cancel_roundtrip_witness :
    ("S" : String) ≠ "" ∧ rowAlice.booked = false ∧
    rowAlice.pharmacist_name ≠ "None" ∧
    (submit_booking [rowAlice] "X" "S" "E").2 = true ∧
    (cancel_booking (submit_booking [rowAlice] "X" "S" "E").1 "X").1.find?
        (fun x => x.unique_code == "X") =
      some { rowAlice with booked := false, surgery := "", email := "" } :=
  ⟨by decide, by decide, by decide,
   (book_cancel_roundtrip [rowAlice] "X" "S" "E" rowAlice (by decide) (by decide)
     (by decide) (by decide) (by decide)).1,
   (book_cancel_roundtrip [rowAlice] "X" "S" "E" rowAlice (by decide) (by decide)
     (by decide) (by decide) (by decide)).2.2.1⟩

/-! ### C5 — the identity scheme -/

/-- C5 (amended): `derive_unique_code` is pure and deterministic (equal
inputs give equal codes), collision-free (distinct triples give distinct
codes), and whenever a persisted record exists for a key with a
**non-empty** stored `unique_code`, every mutation the reconciler emits
for that key carries the stored code, never a recomputed one.  (With an
empty stored code, Python's `or` falls back to recomputation — see the
counterexample.) -/
theorem derive_code_amended :
    (∀ (d₁ d₂ : Nat) (s₁ s₂ : Shift) (i₁ i₂ : Nat), d₁ = d₂ → s₁ = s₂ → i₁ = i₂ →
      derive_unique_code d₁ s₁ i₁ = derive_unique_code d₂ s₂ i₂) ∧
    (∀ (d₁ d₂ : Nat) (s₁ s₂ : Shift) (i₁ i₂ : Nat),
      derive_unique_code d₁ s₁ i₁ = derive_unique_code d₂ s₂ i₂ →
      d₁ = d₂ ∧ s₁ = s₂ ∧ i₁ = i₂) ∧
    (∀ (snap : Snapshot) (k : Key) (s : SlotInfo), snap k = some s →
      s.unique_code ≠ "" →
      ucode snap k = s.unique_code ∧
      ∀ (desired : Key → String) (live : String → Bool) (m : Mutation),
        m ∈ step desired snap live k → mutCode m = s.unique_code) := by
  refine ⟨?_, derive_unique_code_inj, ?_⟩
  · intro d₁ d₂ s₁ s₂ i₁ i₂ hd hs hi
    rw [hd, hs, hi]
  · intro snap k s hk hne
    have hcode : codeAt snap k = s.unique_code := by
      simp [codeAt, hk]
    have hu : ucode snap k = s.unique_code := by
      simp [ucode, hcode, hne]
    refine ⟨hu, ?_⟩
    intro desired live m hm
    simp only [step, hu] at hm
    split_ifs at hm <;>
      first
        | exact absurd hm (List.not_mem_nil m)
        | (rw [List.mem_singleton] at hm; subst hm; rfl)

/-- C5 witness: with a non-empty stored code `"X"`, the reconciler's
code for `key0` is `"X"` itself. -/
theorem derive_code_amended_witness :
    snapAlice key0 = some infoAlice ∧ infoAlice.unique_code ≠ "" ∧
    ucode snapAlice key0 = infoAlice.unique_code :=
  ⟨by decide, by decide,
   (derive_code_amended.2.2 snapAlice key0 infoAlice (by decide) (by decide)).1⟩

/-- C5 counterexample: a persisted record exists at `key0`, but its
stored `unique_code` is the empty string, and the reconciler emits a
mutation carrying the freshly derived code rather than the stored one —
the stored code of an existing record is not always reused. -/
theorem stored_code_not_reused_when_empty :
    snapEmptyCode key0 = some infoEmptyCode ∧
    step desiredBob snapEmptyCode (fun _ => false) key0 =
      [Mutation.create (newRow key0 (derive_unique_code day0 .am 0) "Bob")] ∧
    derive_unique_code day0 .am 0 ≠ infoEmptyCode.unique_code := by
  refine ⟨by decide, by decide, by decide⟩

/-! ### Membership structure of a reconciliation run -/

theorem mem_reconcileKeyed {dates : List Nat} {desired : Key → String}
    {snap : Snapshot} {live : String → Bool} {km : Key × Mutation} :
    km ∈ reconcileKeyed dates desired snap live ↔
    km.1 ∈ gridOf dates ∧ km.2 ∈ step desired snap live km.1 := by
  rcases km with ⟨k, m⟩
  simp only [reconcileKeyed, List.mem_flatMap, List.mem_map]
  constructor
  · rintro ⟨k', hk', m', hm', heq⟩
    rw [Prod.mk.injEq] at heq
    obtain ⟨hk, hm⟩ := heq
    subst hk; subst hm
    exact ⟨hk', hm'⟩
  · rintro ⟨hk, hm⟩
    exact ⟨k, hk, m, hm, rfl⟩

theorem mem_gridOf {dates : List Nat} {k : Key} :
    k ∈ gridOf dates ↔
    k.date ∈ dates ∧ isWeekend k.date = false ∧ k.col < 2 := by
  simp only [gridOf, List.mem_flatMap]
  constructor
  · rintro ⟨d, hd, hk⟩
    by_cases hw : isWeekend d
    · rw [if_pos hw] at hk
      exact absurd hk (List.not_mem_nil k)
    · rw [if_neg hw] at hk
      simp only [dayKeys, List.mem_cons, List.not_mem_nil, or_false] at hk
      have hwf : isWeekend d = false := by
        simpa using hw
      rcases hk with h | h | h | h <;> subst h <;>
        exact ⟨hd, hwf, by simp⟩
  · rintro ⟨hd, hw, hcol⟩
    refine ⟨k.date, hd, ?_⟩
    rw [if_neg (by simp [hw])]
    rcases k with ⟨d, c, s⟩
    simp only [dayKeys, List.mem_cons, List.not_mem_nil, or_false]
    simp only [Key.mk.injEq]
    have hc2 : c < 2 := hcol
    interval_cases c <;> cases s <;> simp

/-- A Delete is emitted at `k` only from the found-cell branch: its code
is `ucode snap k`, the original assignee is a real name and the slot is
unbooked. -/
theorem step_delete_inv {desired : Key → String} {snap : Snapshot}
    {live : String → Bool} {k : Key} {u : String}
    (hm : Mutation.delete u ∈ step desired snap live k) :
    u = ucode snap k ∧ pharmAt snap k ≠ "None" ∧ bookedAt snap k = false := by
  simp only [step] at hm
  split_ifs at hm with h1 h2 h3 h4 h5 h6 <;> simp at hm
  refine ⟨hm, ?_, by simpa using h1⟩
  rcases (Bool.and_eq_true ..).mp h4 with ⟨hx, _⟩
  rcases (Bool.and_eq_true ..).mp hx with ⟨hy, _⟩
  simpa using hy

/-- An UpdateAssignee is emitted at `k` only from the found-cell branch. -/
theorem step_update_inv {desired : Key → String} {snap : Snapshot}
    {live : String → Bool} {k : Key} {u n : String}
    (hm : Mutation.updateAssignee u n ∈ step desired snap live k) :
    u = ucode snap k ∧ pharmAt snap k ≠ "None" ∧ bookedAt snap k = false := by
  simp only [step] at hm
  split_ifs at hm with h1 h2 h3 h4 h5 h6 <;> simp at hm
  refine ⟨hm.1, ?_, by simpa using h1⟩
  rcases (Bool.and_eq_true ..).mp h6 with ⟨hx, _⟩
  rcases (Bool.and_eq_true ..).mp hx with ⟨hy, _⟩
  simpa using hy

/-- A real assignee means the snapshot has an entry. -/
theorem isSome_of_pharm_ne_none {snap : Snapshot} {k : Key}
    (h : pharmAt snap k ≠ "None") : (snap k).isSome = true := by
  unfold pharmAt at h
  cases hs : snap k with
  | none => rw [hs] at h; exact absurd rfl h
  | some s => rfl

/-- Stored codes are non-empty on the listed keys. -/
abbrev codesNonEmptyOn (snap : Snapshot) (ks : List Key) : Prop :=
  ∀ k ∈ ks, (snap k).isSome = true → codeAt snap k ≠ ""

/-- Distinct listed keys never share a (non-empty) stored code — the
spec's §3 invariant that `unique_code` is unique per persisted slot. -/
abbrev codesInjOn (snap : Snapshot) (ks : List Key) : Prop :=
  ∀ k₁ ∈ ks, ∀ k₂ ∈ ks, codeAt snap k₁ ≠ "" → codeAt snap k₁ = codeAt snap k₂ →
    k₁ = k₂

/-! ### C1 — booked-slot immutability -/

/-- C1: a persisted slot with `booked = true` is skipped entirely by the
reconciler — its key emits nothing, and (given the spec's §3 invariant
that stored codes are unique and non-empty) no emitted UpdateAssignee or
Delete can carry that slot's `unique_code` either, whatever the desired
snapshot asks for. -/
theorem booked_slot_immutable (dates : List Nat) (desired : Key → String)
    (snap : Snapshot) (live : String → Bool) (k : Key) (s : SlotInfo)
    (hk : snap k = some s) (hbooked : s.booked = true)
    (hne : codesNonEmptyOn snap (k :: gridOf dates))
    (hinj : codesInjOn snap (k :: gridOf dates)) :
    step desired snap live k = [] ∧
    ∀ km ∈ reconcileKeyed dates desired snap live,
      km.1 ≠ k ∧ km.2 ≠ Mutation.delete s.unique_code ∧
      ∀ n, km.2 ≠ Mutation.updateAssignee s.unique_code n := by
  have hbk : bookedAt snap k = true := by simp [bookedAt, hk, hbooked]
  have hstep : step desired snap live k = [] := by
    simp [step, hbk]
  refine ⟨hstep, ?_⟩
  intro km hkm
  obtain ⟨hgrid, hmem⟩ := mem_reconcileKeyed.mp hkm
  have hq : km.1 ≠ k := by
    intro h
    rw [h, hstep] at hmem
    exact absurd hmem (List.not_mem_nil _)
  have hckk : codeAt snap k = s.unique_code := by simp [codeAt, hk]
  have hknemp : codeAt snap k ≠ "" := by
    exact hne k (List.mem_cons_self ..) (by simp [hk])
  have main : ∀ u, (pharmAt snap km.1 ≠ "None") → (bookedAt snap km.1 = false) →
      u = ucode snap km.1 → u ≠ s.unique_code := by
    intro u hpn hqb hu hus
    have hqsome := isSome_of_pharm_ne_none hpn
    have hqne : codeAt snap km.1 ≠ "" :=
      hne km.1 (List.mem_cons_of_mem _ hgrid) hqsome
    have huq : ucode snap km.1 = codeAt snap km.1 := by
      simp [ucode, hqne]
    have heqc : codeAt snap km.1 = codeAt snap k := by
      rw [← hckk] at hus
      rw [← hus, hu, huq]
    have := hinj km.1 (List.mem_cons_of_mem _ hgrid) k (List.mem_cons_self ..)
      hqne heqc
    rw [this] at hqb
    rw [hbk] at hqb
    exact Bool.true_eq_false ▸ (by simp at hqb)
  refine ⟨hq, ?_, ?_⟩
  · intro hdel
    rw [hdel] at hmem
    obtain ⟨hu, hpn, hqb⟩ := step_delete_inv hmem
    exact main _ hpn hqb hu rfl
  · intro n hupd
    rw [hupd] at hmem
    obtain ⟨hu, hpn, hqb⟩ := step_update_inv hmem
    exact main _ hpn hqb hu rfl

/-- Snapshot info for a booked slot with stored code `"X"`. -/
def infoBooked : SlotInfo :=
  ⟨true, "Surg", "s@x", "X", "Alice"⟩

/-- A snapshot holding exactly `infoBooked` at `key0`. -/
def snapBooked : Snapshot := fun k => if k = key0 then some infoBooked else none

/-- The live lookup that finds exactly the code `"X"`. -/
def liveX : String → Bool := fun u => u == "X"

/-- C1 witness: a concrete booked slot is skipped even though the
desired snapshot asks to reassign it to Bob. -/
theorem booked_slot_immutable_witness :
    snapBooked key0 = some infoBooked ∧ infoBooked.booked = true ∧
    step desiredBob snapBooked liveX key0 = [] :=
  ⟨by decide, by decide,
   (booked_slot_immutable [day0] desiredBob snapBooked liveX key0 infoBooked
     (by decide) (by decide) (by decide) (by decide)).1⟩

/-! ### C10 — only columns 0 and 1 are examined -/

/-- C10: every mutation a reconciliation run emits comes from a key
whose column index is 0 or 1; a desired or persisted entry with
`slot_index ≥ 2` never produces a Create, UpdateAssignee or Delete for
its key, so such entries are silently ignored by bulk edits. -/
theorem reconciler_examines_columns_lt_two (dates : List Nat)
    (desired : Key → String) (snap : Snapshot) (live : String → Bool)
    (km : Key × Mutation)
    (hm : km ∈ reconcileKeyed dates desired snap live) :
    km.1.col < 2 :=
  (mem_gridOf.mp (mem_reconcileKeyed.mp hm).1).2.2

/-- C10 witness: a concrete run that emits one Create, whose key sits in
column 0. -/
theorem reconciler_examines_columns_lt_two_witness : key0.col < 2 :=
  reconciler_examines_columns_lt_two [day0] desiredBob (fun _ => none)
    (fun _ => false) (key0, Mutation.create (newRow key0 key0.derived "Bob"))
    (by decide)

/-! ### C2 — the per-key case analysis -/

/-- C2 (amended): restricted to the keys the run actually examines —
weekday dates inside the shown window, columns 0 and 1 — and given the
spec's snapshot well-formedness (non-empty stored codes that the live
lookup finds), the per-key behaviour on an unbooked slot is exactly the
spec's case analysis (no-op / Delete stored code / Create unbooked row
with the desired name / UpdateAssignee); and every emitted mutation
comes from an examined key, so persisted entries elsewhere — weekend
dates, columns ≥ 2, dates outside the window — produce no mutation. -/
theorem reconciler_case_analysis (dates : List Nat) (desired : Key → String)
    (snap : Snapshot) (live : String → Bool)
    (hwf : ∀ k ∈ gridOf dates, (snap k).isSome = true →
      codeAt snap k ≠ "" ∧ live (codeAt snap k) = true) :
    (∀ k ∈ gridOf dates, bookedAt snap k = false →
      step desired snap live k = specAlgorithmCase desired snap k) ∧
    (∀ km ∈ reconcileKeyed dates desired snap live,
      km.1.date ∈ dates ∧ isWeekend km.1.date = false ∧ km.1.col < 2) := by
  constructor
  · intro k hk hbook
    cases hsnap : snap k with
    | none =>
      by_cases hd : desired k = "None"
      · simp [step, specAlgorithmCase, pharmAt, hsnap, hd, bookedAt]
      · simp [step, specAlgorithmCase, pharmAt, codeAt, ucode, hsnap, hd,
          bookedAt, Ne.symm hd]
    | some s =>
      have hsome : (snap k).isSome = true := by simp [hsnap]
      obtain ⟨hne, hlive⟩ := hwf k hk hsome
      have hne' : s.unique_code ≠ "" := by simpa [codeAt, hsnap] using hne
      have hlive' : live s.unique_code = true := by
        simpa [codeAt, hsnap] using hlive
      have hbk : bookedAt snap k = false := hbook
      by_cases hd : desired k = s.pharmacist_name
      · simp [step, specAlgorithmCase, pharmAt, hsnap, hd, hbk]
      · by_cases hdn : desired k = "None"
        · have hpn : s.pharmacist_name ≠ "None" := fun h => hd (hdn.trans h.symm)
          simp [step, specAlgorithmCase, pharmAt, codeAt, ucode, hsnap, hd, hdn,
            hbk, hpn, hlive', hne', Ne.symm hd, Ne.symm hpn]
        · by_cases hpn : s.pharmacist_name = "None"
          · simp [step, specAlgorithmCase, pharmAt, codeAt, ucode, hsnap, hd,
              hdn, hbk, hpn, hne', Ne.symm hd, Ne.symm hdn]
          · simp [step, specAlgorithmCase, pharmAt, codeAt, ucode, hsnap, hd,
              hdn, hbk, hpn, hne', hlive', Ne.symm hd, Ne.symm hdn, Ne.symm hpn]
  · intro km hkm
    exact mem_gridOf.mp (mem_reconcileKeyed.mp hkm).1

/-- C2 witness: at a concrete examined key the loop body agrees with the
spec's case analysis. -/
theorem reconciler_case_analysis_witness :
    key0 ∈ gridOf [day0] ∧ bookedAt snapAlice key0 = false ∧
    step desiredBob snapAlice liveX key0 =
      specAlgorithmCase desiredBob snapAlice key0 :=
  ⟨by decide, by decide,
   (reconciler_case_analysis [day0] desiredBob snapAlice liveX (by decide)).1
     key0 (by decide) (by decide)⟩

/-- A persisted entry at column index 2. -/
def keyCol2 : Key := ⟨day0, 2, .am⟩

/-- A snapshot holding exactly `infoAlice` at column 2 of `day0` AM. -/
def snapCol2 : Snapshot := fun k => if k = keyCol2 then some infoAlice else none

/-- C2 counterexample: a weekday key in the persisted domain with
column_index 2 — unbooked, assigned to Alice, desired unassigned — is in
the union of the Desired and Persisted domains, so the claim requires a
Delete for it, but the run emits no mutation at all. -/
theorem column_two_key_not_reconciled :
    snapCol2 keyCol2 = some infoAlice ∧ infoAlice.booked = false ∧
    infoAlice.pharmacist_name ≠ "None" ∧ desiredNone keyCol2 = "None" ∧
    isWeekend keyCol2.date = false ∧
    reconcile [day0] desiredNone snapCol2 liveX = [] :=
  ⟨by decide, by decide, by decide, by decide, by decide, by decide⟩

/-! ### C9 — failed-lookup semantics -/

/-- C9 (amended): a failed live lookup is converted into a Create
fallback with a surfaced warning **only** in the modification case
(original and desired both real names, different); in the deletion case
a failed lookup emits no mutation and no warning, silently dropping the
removal; and the failure is never fatal — a run over concatenated date
batches is the concatenation of the runs, so remaining keys are always
processed. -/
theorem lookup_failure_fallback :
    (∀ (desired : Key → String) (snap : Snapshot) (live : String → Bool) (k : Key),
      bookedAt snap k = false → desired k ≠ pharmAt snap k →
      desired k ≠ "None" → pharmAt snap k ≠ "None" →
      live (ucode snap k) = false →
      step desired snap live k =
        [Mutation.create (newRow k (ucode snap k) (desired k))] ∧
      stepWarn desired snap live k = [ucode snap k]) ∧
    (∀ (desired : Key → String) (snap : Snapshot) (live : String → Bool) (k : Key),
      bookedAt snap k = false → desired k = "None" → desired k ≠ pharmAt snap k →
      live (ucode snap k) = false →
      step desired snap live k = [] ∧ stepWarn desired snap live k = []) ∧
    (∀ (dates₁ dates₂ : List Nat) (desired : Key → String) (snap : Snapshot)
      (live : String → Bool),
      reconcile (dates₁ ++ dates₂) desired snap live =
        reconcile dates₁ desired snap live ++ reconcile dates₂ desired snap live ∧
      reconWarnings (dates₁ ++ dates₂) desired snap live =
        reconWarnings dates₁ desired snap live ++
          reconWarnings dates₂ desired snap live) := by
  refine ⟨?_, ?_, ?_⟩
  · intro desired snap live k hbook hchanged hdn hpn hlive
    constructor
    · simp [step, hbook, hchanged, hdn, hpn, hlive]
    · simp [stepWarn, hbook, hchanged, hdn, hpn, hlive]
  · intro desired snap live k hbook hdn hchanged hlive
    constructor
    · simp [step, hbook, hchanged, hdn, hlive]
    · simp [stepWarn, hbook, hchanged, hdn, hlive]
  · intro dates₁ dates₂ desired snap live
    constructor
    · simp [reconcile, reconcileKeyed, gridOf, List.flatMap_append]
    · simp [reconWarnings, gridOf, List.flatMap_append]

/-- C9 witness: a concrete modification whose live lookup fails — the
run falls back to a Create carrying the desired name and warns. -/
theorem lookup_failure_fallback_witness :
    bookedAt snapAlice key0 = false ∧
    pharmAt snapAlice key0 ≠ "None" ∧
    (fun _ : String => false) (ucode snapAlice key0) = false ∧
    step desiredBob snapAlice (fun _ => false) key0 =
      [Mutation.create (newRow key0 (ucode snapAlice key0) (desiredBob key0))] ∧
    stepWarn desiredBob snapAlice (fun _ => false) key0 =
      [ucode snapAlice key0] :=
  ⟨by decide, by decide, by decide,
   (lookup_failure_fallback.1 desiredBob snapAlice (fun _ => false) key0
     (by decide) (by decide) (by decide) (by decide) (by decide)).1,
   (lookup_failure_fallback.1 desiredBob snapAlice (fun _ => false) key0
     (by decide) (by decide) (by decide) (by decide) (by decide)).2⟩

/-- C9 counterexample: the deletion case with a failed lookup — the
claim requires a Create fallback and a warning there too, but the run
emits no mutation and surfaces no warning at all. -/
theorem delete_lookup_failure_silent :
    snapAlice key0 = some infoAlice ∧ infoAlice.booked = false ∧
    desiredNone key0 = "None" ∧ desiredNone key0 ≠ pharmAt snapAlice key0 ∧
    (fun _ : String => false) (ucode snapAlice key0) = false ∧
    reconcile [day0] desiredNone snapAlice (fun _ => false) = [] ∧
    reconWarnings [day0] desiredNone snapAlice (fun _ => false) = [] :=
  ⟨by decide, by decide, by decide, by decide, by decide, by decide, by decide⟩

/-! ### C8 — emission order and determinism -/

/-- AM before PM, numerically. -/
def Shift.idx : Shift → Nat
  | .am => 0
  | .pm => 1

/-- The stable emission order: date ascending, then column index, then
shift AM before PM. -/
def keyLT (k₁ k₂ : Key) : Prop :=
  k₁.date < k₂.date ∨
    (k₁.date = k₂.date ∧
      (k₁.col < k₂.col ∨ (k₁.col = k₂.col ∧ k₁.shift.idx < k₂.shift.idx)))

theorem keyLT_irrefl (k : Key) : ¬keyLT k k := by
  simp [keyLT]

theorem pairwise_dayKeys (d : Nat) : List.Pairwise keyLT (dayKeys d) := by
  simp [dayKeys, keyLT, Shift.idx]

theorem date_of_mem_dayKeys {d : Nat} {k : Key} (h : k ∈ dayKeys d) :
    k.date = d := by
  simp only [dayKeys, List.mem_cons, List.not_mem_nil, or_false] at h
  rcases h with h | h | h | h <;> subst h <;> rfl

theorem pairwise_gridOf : ∀ {dates : List Nat},
    List.Pairwise (· < ·) dates → List.Pairwise keyLT (gridOf dates) := by
  intro dates
  induction dates with
  | nil => intro _; simp [gridOf]
  | cons d ds ih =>
    intro h
    rw [List.pairwise_cons] at h
    simp only [gridOf, List.flatMap_cons]
    rw [List.pairwise_append]
    refine ⟨?_, ih h.2, ?_⟩
    · by_cases hw : isWeekend d
      · simp [hw]
      · rw [if_neg hw]
        exact pairwise_dayKeys d
    · intro a ha b hb
      have had : a.date = d := by
        by_cases hw : isWeekend d
        · rw [if_pos hw] at ha
          exact absurd ha (List.not_mem_nil a)
        · rw [if_neg hw] at ha
          exact date_of_mem_dayKeys ha
      have hbd : d < b.date := by
        rcases List.mem_flatMap.mp hb with ⟨d', hd', hb'⟩
        have : b.date = d' := by
          by_cases hw : isWeekend d'
          · rw [if_pos hw] at hb'
            exact absurd hb' (List.not_mem_nil b)
          · rw [if_neg hw] at hb'
            exact date_of_mem_dayKeys hb'
        rw [this]
        exact h.1 d' hd'
      exact Or.inl (had ▸ hbd)

theorem step_length_le_one (desired : Key → String) (snap : Snapshot)
    (live : String → Bool) (k : Key) :
    (step desired snap live k).length ≤ 1 := by
  simp only [step]
  split_ifs <;> simp

theorem keys_sublist (dates : List Nat) (desired : Key → String)
    (snap : Snapshot) (live : String → Bool) :
    ((reconcileKeyed dates desired snap live).map Prod.fst).Sublist
      (gridOf dates) := by
  unfold reconcileKeyed
  generalize gridOf dates = ks
  induction ks with
  | nil => simp
  | cons k t ih =>
    simp only [List.flatMap_cons, List.map_append, List.map_map]
    cases hl : step desired snap live k with
    | nil => simpa [hl] using ih.cons k
    | cons m ms =>
      have : ms = [] := by
        have := step_length_le_one desired snap live k
        rw [hl] at this
        simpa using this
      subst this
      simpa [hl] using ih.cons₂ k

/-- C8: given the shown dates in ascending order (as `dates_to_show`
is), one run's mutations are tagged with strictly increasing keys — date
ascending, then column index, then shift AM before PM — and the run is
deterministic: pointwise-identical Desired, Persisted and lookup inputs
yield mutation lists that are equal as ordered sequences. -/
theorem reconciler_ordered_deterministic (dates : List Nat)
    (desired : Key → String) (snap : Snapshot) (live : String → Bool)
    (hsorted : List.Pairwise (· < ·) dates) :
    List.Pairwise keyLT
      ((reconcileKeyed dates desired snap live).map Prod.fst) ∧
    (∀ (desired₂ : Key → String) (snap₂ : Snapshot) (live₂ : String → Bool),
      (∀ k, desired₂ k = desired k) → (∀ k, snap₂ k = snap k) →
      (∀ u, live₂ u = live u) →
      reconcile dates desired₂ snap₂ live₂ =
        reconcile dates desired snap live) := by
  constructor
  · exact List.Pairwise.sublist (keys_sublist dates desired snap live)
      (pairwise_gridOf hsorted)
  · intro desired₂ snap₂ live₂ hd hs hl
    rw [funext hd, funext hs, funext hl]

/-- C8 witness: a concrete two-day run emits keys in strictly increasing
order. -/
theorem reconciler_ordered_deterministic_witness :
    List.Pairwise (· < ·) [day0, day0 + 1] ∧
    List.Pairwise keyLT
      ((reconcileKeyed [day0, day0 + 1] desiredBob snapAlice liveX).map
        Prod.fst) :=
  ⟨by decide,
   (reconciler_ordered_deterministic [day0, day0 + 1] desiredBob snapAlice liveX
     (by decide)).1⟩

/-! ### C6 — idempotence of reconciliation -/

theorem reconcile_eq_flatMap (dates : List Nat) (desired : Key → String)
    (snap : Snapshot) (live : String → Bool) :
    reconcile dates desired snap live =
      (gridOf dates).flatMap (step desired snap live) := by
  simp [reconcile, reconcileKeyed, List.map_flatMap, List.map_map, Function.comp]

theorem applyMutations_append (a b : List Mutation) (σ : Snapshot) :
    applyMutations (a ++ b) σ = applyMutations b (applyMutations a σ) := by
  simp [applyMutations, List.foldl_append]

/-- The three shapes a single key's emission can take; all carry
`ucode snap k`. -/
theorem step_shape {desired : Key → String} {snap : Snapshot}
    {live : String → Bool} {k : Key} {m : Mutation}
    (hm : m ∈ step desired snap live k) :
    m = Mutation.delete (ucode snap k) ∨
    m = Mutation.updateAssignee (ucode snap k) (desired k) ∨
    m = Mutation.create (newRow k (ucode snap k) (desired k)) := by
  simp only [step] at hm
  split_ifs at hm <;> simp at hm <;>
    first
      | exact Or.inl hm
      | exact Or.inr (Or.inl hm)
      | exact Or.inr (Or.inr hm)

theorem nodup_gridOf {dates : List Nat} (h : List.Pairwise (· < ·) dates) :
    (gridOf dates).Nodup :=
  (pairwise_gridOf h).imp fun hab => fun he =>
    keyLT_irrefl _ (he ▸ hab)

/-- During a batch, every entry sitting at a listed key keeps the code
the reconciler computed for that key. -/
def codesFixed (snap : Snapshot) (grid : List Key) (σ : Snapshot) : Prop :=
  ∀ q ∈ grid, ∀ s', σ q = some s' → s'.unique_code = ucode snap q

theorem codesFixed_apply {snap : Snapshot} {grid : List Key} {σ : Snapshot}
    {desired : Key → String} {live : String → Bool} {k' : Key} {m : Mutation}
    (hInv : codesFixed snap grid σ) (hm : m ∈ step desired snap live k') :
    codesFixed snap grid (applyMutation σ m) := by
  intro q hq s' hs'
  rcases step_shape hm with h | h | h <;> subst h
  · simp only [applyMutation] at hs'
    cases hσ : σ q with
    | none => rw [hσ] at hs'; exact absurd hs' (by simp)
    | some t =>
      rw [hσ] at hs'
      dsimp only at hs'
      by_cases hc : t.unique_code = ucode snap k'
      · rw [if_pos hc] at hs'; exact absurd hs' (by simp)
      · rw [if_neg hc] at hs'
        rw [← Option.some.inj hs']
        exact hInv q hq t hσ
  · simp only [applyMutation] at hs'
    cases hσ : σ q with
    | none => rw [hσ] at hs'; exact absurd hs' (by simp)
    | some t =>
      rw [hσ] at hs'
      dsimp only at hs'
      by_cases hc : t.unique_code = ucode snap k'
      · rw [if_pos hc] at hs'
        rw [← Option.some.inj hs']
        exact hInv q hq t hσ
      · rw [if_neg hc] at hs'
        rw [← Option.some.inj hs']
        exact hInv q hq t hσ
  · simp only [applyMutation] at hs'
    by_cases hqk : q = (newRow k' (ucode snap k') (desired k')).key
    · rw [if_pos hqk] at hs'
      rw [← Option.some.inj hs']
      have hq' : q = k' := hqk
      rw [hq']
      rfl
    · rw [if_neg hqk] at hs'
      exact hInv q hq s' hs'

theorem applyMutation_frame {snap : Snapshot} {grid : List Key} {σ : Snapshot}
    {desired : Key → String} {live : String → Bool} {k k' : Key} {m : Mutation}
    (hInv : codesFixed snap grid σ) (hk : k ∈ grid)
    (hcode : ucode snap k' ≠ ucode snap k) (hkk : k ≠ k')
    (hm : m ∈ step desired snap live k') :
    applyMutation σ m k = σ k := by
  rcases step_shape hm with h | h | h <;> subst h
  · simp only [applyMutation]
    cases hσ : σ k with
    | none => rfl
    | some t =>
      have ht := hInv k hk t hσ
      dsimp only
      rw [if_neg (fun hh => hcode (ht ▸ hh).symm)]
  · simp only [applyMutation]
    cases hσ : σ k with
    | none => rfl
    | some t =>
      have ht := hInv k hk t hσ
      dsimp only
      rw [if_neg (fun hh => hcode (ht ▸ hh).symm)]
  · simp only [applyMutation]
    have hkey : (newRow k' (ucode snap k') (desired k')).key = k' := rfl
    rw [hkey, if_neg hkk]

theorem applyMutations_frame {snap : Snapshot} {grid : List Key}
    {desired : Key → String} {live : String → Bool} {k : Key}
    (hk : k ∈ grid) :
    ∀ (ks : List Key) (σ : Snapshot), codesFixed snap grid σ →
    (∀ k' ∈ ks, k' ≠ k) →
    (∀ k' ∈ ks, ucode snap k' ≠ ucode snap k) →
    applyMutations (ks.flatMap (step desired snap live)) σ k = σ k := by
  intro ks
  induction ks with
  | nil => intro σ _ _ _; rfl
  | cons k' t ih =>
    intro σ hInv hner hsep
    rw [List.flatMap_cons, applyMutations_append]
    have hone : ∀ τ : Snapshot, codesFixed snap grid τ →
        applyMutations (step desired snap live k') τ k = τ k := by
      intro τ hτ
      cases hl : step desired snap live k' with
      | nil => rfl
      | cons m ms =>
        have hms : ms = [] := by
          have := step_length_le_one desired snap live k'
          rw [hl] at this
          simpa using this
        subst hms
        have hm : m ∈ step desired snap live k' := by
          rw [hl]; exact List.mem_cons_self ..
        show applyMutation τ m k = τ k
        exact applyMutation_frame hτ hk (hsep k' (List.mem_cons_self ..))
          (fun hh => hner k' (List.mem_cons_self ..) hh.symm) hm
    have hInv1 : codesFixed snap grid
        (applyMutations (step desired snap live k') σ) := by
      cases hl : step desired snap live k' with
      | nil => exact hInv
      | cons m ms =>
        have hms : ms = [] := by
          have := step_length_le_one desired snap live k'
          rw [hl] at this
          simpa using this
        subst hms
        have hm : m ∈ step desired snap live k' := by
          rw [hl]; exact List.mem_cons_self ..
        show codesFixed snap grid (applyMutation σ m)
        exact codesFixed_apply hInv hm
    rw [ih (applyMutations (step desired snap live k') σ) hInv1
      (fun q hq => hner q (List.mem_cons_of_mem _ hq))
      (fun q hq => hsep q (List.mem_cons_of_mem _ hq))]
    exact hone σ hInv

theorem pharmAt_eq_of {σ τ : Snapshot} {k : Key} (h : σ k = τ k) :
    pharmAt σ k = pharmAt τ k := by
  unfold pharmAt
  rw [h]

theorem bookedAt_eq_of {σ τ : Snapshot} {k : Key} (h : σ k = τ k) :
    bookedAt σ k = bookedAt τ k := by
  unfold bookedAt
  rw [h]

theorem step_eq_nil {desired : Key → String} {snap : Snapshot}
    {live : String → Bool} {k : Key}
    (h : bookedAt snap k = true ∨ desired k = pharmAt snap k) :
    step desired snap live k = [] := by
  rcases h with h | h
  · simp [step, h]
  · simp [step, h]

/-- After applying one run's mutations, every processed key is either
still booked or already carries the desired assignee. -/
theorem applyMutations_resolves (snap : Snapshot) (desired : Key → String)
    (live : String → Bool) (grid : List Key)
    (hne : codesNonEmptyOn snap grid)
    (hsep : ∀ k₁ ∈ grid, ∀ k₂ ∈ grid, k₁ ≠ k₂ →
      ucode snap k₁ ≠ ucode snap k₂)
    (hlive : ∀ k ∈ grid, (snap k).isSome = true →
      live (codeAt snap k) = true) :
    ∀ (ks : List Key), ks.Nodup → (∀ k ∈ ks, k ∈ grid) →
    ∀ (σ : Snapshot), codesFixed snap grid σ → (∀ k ∈ ks, σ k = snap k) →
    ∀ k ∈ ks,
      bookedAt (applyMutations (ks.flatMap (step desired snap live)) σ) k
        = true ∨
      desired k =
        pharmAt (applyMutations (ks.flatMap (step desired snap live)) σ) k := by
  intro ks
  induction ks with
  | nil =>
    intro _ _ σ _ _ k hk
    exact absurd hk (List.not_mem_nil k)
  | cons k₀ t ih =>
    intro hnodup hsub σ hInv huntouched k hk
    rw [List.flatMap_cons, applyMutations_append]
    have hk₀g : k₀ ∈ grid := hsub k₀ (List.mem_cons_self ..)
    have hnd := List.nodup_cons.mp hnodup
    have hInv1 : codesFixed snap grid
        (applyMutations (step desired snap live k₀) σ) := by
      cases hl : step desired snap live k₀ with
      | nil => exact hInv
      | cons m ms =>
        have hms : ms = [] := by
          have := step_length_le_one desired snap live k₀
          rw [hl] at this
          simpa using this
        subst hms
        have hm : m ∈ step desired snap live k₀ := by
          rw [hl]; exact List.mem_cons_self ..
        show codesFixed snap grid (applyMutation σ m)
        exact codesFixed_apply hInv hm
    have huntouched1 : ∀ k' ∈ t,
        applyMutations (step desired snap live k₀) σ k' = snap k' := by
      intro k' hk'
      have hk'g := hsub k' (List.mem_cons_of_mem _ hk')
      have hk'ne : k' ≠ k₀ := fun h => hnd.1 (h ▸ hk')
      have hfr : applyMutations (step desired snap live k₀) σ k' = σ k' := by
        cases hl : step desired snap live k₀ with
        | nil => rfl
        | cons m ms =>
          have hms : ms = [] := by
            have := step_length_le_one desired snap live k₀
            rw [hl] at this
            simpa using this
          subst hms
          have hm : m ∈ step desired snap live k₀ := by
            rw [hl]; exact List.mem_cons_self ..
          show applyMutation σ m k' = σ k'
          exact applyMutation_frame hInv hk'g
            (hsep k₀ hk₀g k' hk'g (fun h => hk'ne h.symm)) hk'ne hm
      rw [hfr]
      exact huntouched k' (List.mem_cons_of_mem _ hk')
    rcases List.mem_cons.mp hk with hkk₀ | hkt
    · subst hkk₀
      have hσk : σ k = snap k := huntouched k (List.mem_cons_self ..)
      have hframe :
          applyMutations (t.flatMap (step desired snap live))
            (applyMutations (step desired snap live k) σ) k =
          applyMutations (step desired snap live k) σ k := by
        apply applyMutations_frame hk₀g t _ hInv1
        · intro k' hk'
          exact fun h => hnd.1 (h ▸ hk')
        · intro k' hk'
          exact hsep k' (hsub k' (List.mem_cons_of_mem _ hk')) k hk₀g
            (fun h => hnd.1 (h ▸ hk'))
      rw [bookedAt_eq_of hframe, pharmAt_eq_of hframe]
      by_cases hb : bookedAt snap k = true
      · left
        have hl : step desired snap live k = [] := step_eq_nil (Or.inl hb)
        rw [hl]
        show bookedAt σ k = true
        rw [bookedAt_eq_of hσk]
        exact hb
      · by_cases hdd : desired k = pharmAt snap k
        · right
          have hl : step desired snap live k = [] := step_eq_nil (Or.inr hdd)
          rw [hl]
          show desired k = pharmAt σ k
          rw [pharmAt_eq_of hσk]
          exact hdd
        · have hbf : bookedAt snap k = false := by
            simpa using hb
          by_cases hdn : desired k = "None"
          · right
            have hpn : pharmAt snap k ≠ "None" :=
              fun h => hdd (hdn.trans h.symm)
            have hsome := isSome_of_pharm_ne_none hpn
            have hcne : codeAt snap k ≠ "" := hne k hk₀g hsome
            have hul : ucode snap k = codeAt snap k := by
              simp [ucode, hcne]
            have hlv : live (ucode snap k) = true := by
              rw [hul]
              exact hlive k hk₀g hsome
            have hlv2 : live (codeAt snap k) = true := by
              rw [← hul]
              exact hlv
            have hl : step desired snap live k =
                [Mutation.delete (ucode snap k)] := by
              simp [step, hbf, hdd, hdn, hpn, hul, hcne, hlv, hlv2,
                Ne.symm hpn]
            rw [hl]
            show desired k = pharmAt (applyMutation σ (.delete (ucode snap k))) k
            cases hs : snap k with
            | none => rw [hs] at hsome; exact absurd hsome (by simp)
            | some s =>
              have hσs : σ k = some s := hσk.trans hs
              have hsc : s.unique_code = ucode snap k := by
                rw [hul]
                simp [codeAt, hs]
              have happ : applyMutation σ (.delete (ucode snap k)) k = none := by
                simp only [applyMutation]
                rw [hσs]
                dsimp only
                rw [if_pos hsc]
              have hph : pharmAt (applyMutation σ (.delete (ucode snap k))) k
                  = "None" := by
                unfold pharmAt
                rw [happ]
              rw [hph, hdn]
          · by_cases hpn : pharmAt snap k = "None"
            · right
              have hl : step desired snap live k =
                  [Mutation.create (newRow k (ucode snap k) (desired k))] := by
                simp [step, hbf, hdd, hdn, hpn]
              rw [hl]
              show desired k =
                pharmAt (applyMutation σ
                  (.create (newRow k (ucode snap k) (desired k)))) k
              have hkey : (newRow k (ucode snap k) (desired k)).key = k := rfl
              have happ : applyMutation σ
                  (.create (newRow k (ucode snap k) (desired k))) k =
                  some { booked := false, surgery := "", email := "",
                         unique_code := ucode snap k,
                         pharmacist_name := desired k } := by
                simp only [applyMutation]
                rw [hkey, if_pos rfl]
                rfl
              have hph : pharmAt (applyMutation σ
                  (.create (newRow k (ucode snap k) (desired k)))) k
                  = desired k := by
                unfold pharmAt
                rw [happ]
              rw [hph]
            · right
              have hsome := isSome_of_pharm_ne_none hpn
              have hcne : codeAt snap k ≠ "" := hne k hk₀g hsome
              have hul : ucode snap k = codeAt snap k := by
                simp [ucode, hcne]
              have hlv : live (ucode snap k) = true := by
                rw [hul]
                exact hlive k hk₀g hsome
              have hlv2 : live (codeAt snap k) = true := by
                rw [← hul]
                exact hlv
              have hl : step desired snap live k =
                  [Mutation.updateAssignee (ucode snap k) (desired k)] := by
                simp [step, hbf, hdd, hdn, hpn, hul, hcne, hlv, hlv2,
                  Ne.symm hpn]
              rw [hl]
              show desired k =
                pharmAt (applyMutation σ
                  (.updateAssignee (ucode snap k) (desired k))) k
              cases hs : snap k with
              | none => rw [hs] at hsome; exact absurd hsome (by simp)
              | some s =>
                have hσs : σ k = some s := hσk.trans hs
                have hsc : s.unique_code = ucode snap k := by
                  rw [hul]
                  simp [codeAt, hs]
                have happ : applyMutation σ
                    (.updateAssignee (ucode snap k) (desired k)) k =
                    some { s with pharmacist_name := desired k } := by
                  simp only [applyMutation]
                  rw [hσs]
                  dsimp only
                  rw [if_pos hsc]
                have hph : pharmAt (applyMutation σ
                    (.updateAssignee (ucode snap k) (desired k))) k
                    = desired k := by
                  unfold pharmAt
                  rw [happ]
                rw [hph]
    · exact ih hnd.2 (fun k' hk' => hsub k' (List.mem_cons_of_mem _ hk'))
        (applyMutations (step desired snap live k₀) σ) hInv1 huntouched1 k hkt

/-- C6: with a well-formed snapshot — codes non-empty and separated per
key (the spec's §3 uniqueness invariant) and a live lookup consistent
with the snapshot — applying one run's mutation list to the Persisted
snapshot and reconciling again with the same Desired snapshot emits no
mutations, whatever lookup the second run uses. -/
theorem reconcile_idempotent (dates : List Nat) (desired : Key → String)
    (snap : Snapshot) (live live₂ : String → Bool)
    (hsorted : List.Pairwise (· < ·) dates)
    (hne : codesNonEmptyOn snap (gridOf dates))
    (hsep : ∀ k₁ ∈ gridOf dates, ∀ k₂ ∈ gridOf dates, k₁ ≠ k₂ →
      ucode snap k₁ ≠ ucode snap k₂)
    (hlive : ∀ k ∈ gridOf dates, (snap k).isSome = true →
      live (codeAt snap k) = true) :
    reconcile dates desired
      (applyMutations (reconcile dates desired snap live) snap) live₂ = [] := by
  have hnodup : (gridOf dates).Nodup := nodup_gridOf hsorted
  rw [reconcile_eq_flatMap, reconcile_eq_flatMap]
  have hInv0 : codesFixed snap (gridOf dates) snap := by
    intro q hq s' hs'
    have hsome : (snap q).isSome = true := by simp [hs']
    have hcne := hne q hq hsome
    have : codeAt snap q = s'.unique_code := by simp [codeAt, hs']
    rw [← this]
    simp [ucode, hcne]
  have hgood := applyMutations_resolves snap desired live (gridOf dates)
    hne hsep hlive (gridOf dates) hnodup (fun _ h => h) snap hInv0
    (fun _ _ => rfl)
  rw [List.eq_nil_iff_forall_not_mem]
  intro m hm
  rcases List.mem_flatMap.mp hm with ⟨k, hk, hmk⟩
  rw [step_eq_nil (hgood k hk)] at hmk
  exact absurd hmk (List.not_mem_nil m)

/-- C6 witness: a concrete run (reassign Alice to Bob), applied to the
snapshot, after which a second run emits nothing. -/
theorem reconcile_idempotent_witness :
    List.Pairwise (· < ·) [day0] ∧
    reconcile [day0] desiredBob
      (applyMutations (reconcile [day0] desiredBob snapAlice liveX) snapAlice)
      (fun _ => false) = [] :=
  ⟨by decide,
   reconcile_idempotent [day0] desiredBob snapAlice liveX (fun _ => false)
     (by decide) (by decide) (by decide) (by decide)⟩

end StreamlitCal
